import Mathlib

/-!
Shallow embedding of the CENC subsample-decryption core of
`src/shaka/src/media/ffmpeg_encoded_frame.cc` (`FFmpegEncodedFrame::Decrypt`
and the file-local helper `IncrementIv`), together with proofs about the
claims of the specification.

Bytes are modelled as `Nat` (well-formed inputs carry values `< 256`);
machine arithmetic that can truncate in the source (`uint32_t` assignments)
carries an explicit `% 2 ^ 32`.  The stateful walk over the subsample table
is modelled by explicit state passing; the abstract CDM is a pair of
functions (status and output bytes) of the full call parameters, and the
walk also returns the chronological list of CDM calls it performed.
Undefined behaviour in the source (division by zero; an IV buffer whose
size violates the source's own `DCHECK_EQ(iv->size(), 16u)`) is modelled by
a distinguished `crash` outcome.
-/

namespace Shaka

/-- Wire tag `cenc` = 0x63656e63 (source line 36). -/
def kCencScheme : Nat := 0x63656e63
/-- Wire tag `cens` = 0x63656e73 (source line 37). -/
def kCensScheme : Nat := 0x63656e73
/-- Wire tag `cbc1` = 0x63626331 (source line 38). -/
def kCbc1Scheme : Nat := 0x63626331
/-- Wire tag `cbcs` = 0x63626373 (source line 39). -/
def kCbcsScheme : Nat := 0x63626373

/-- `kAesBlockSize` (source line 35). -/
def kAesBlockSize : Nat := 16

/-- `eme::EncryptionScheme`: the cipher family passed to the CDM. -/
inductive EncryptionScheme
  | AesCtr
  | AesCbc
deriving DecidableEq, Repr

/-- `eme::DecryptStatus` as seen by the switch statements in the source:
`Success`, `NotSupported`, `KeyNotFound`, and the `default` arm. -/
inductive DecryptStatus
  | Success
  | NotSupported
  | KeyNotFound
  | OtherError
deriving DecidableEq, Repr

/-- `shaka::media::Status` values that `Decrypt` can return. -/
inductive Status
  | Success
  | NotSupported
  | KeyNotFound
  | UnknownError
  | OutOfMemory
  | InvalidContainerData
deriving DecidableEq, Repr

/-- One entry of `AVEncryptionInfo.subsamples` (both fields are `uint32_t`
on the wire). -/
structure Subsample where
  bytes_of_clear_data : Nat
  bytes_of_protected_data : Nat
deriving DecidableEq, Repr

/-- The decoded `AVEncryptionInfo` side data. -/
structure EncryptionInfo where
  scheme : Nat
  crypt_byte_block : Nat
  skip_byte_block : Nat
  key_id : List Nat
  iv : List Nat
  subsamples : List Subsample
deriving DecidableEq, Repr

/-- Timestamp and flag fields of the frame; `Decrypt` never reads or writes
them, they are carried only so that their preservation can be stated.  The
`double`-valued fields of the source are opaque here (no arithmetic on them
occurs inside `Decrypt`). -/
structure FrameMeta where
  pts : Int
  dts : Int
  duration : Int
  stream_id : Nat
  timestamp_offset : Int
  is_key_frame : Bool
deriving DecidableEq, Repr

/-- The frame: packet payload, decoded encryption side data (none when the
packet carries no encryption-info blob), and the remaining fields. -/
structure Frame where
  payload : List Nat
  enc_info : Option EncryptionInfo
  meta : FrameMeta
deriving DecidableEq, Repr

/-- The memory `Decrypt` can touch: the (const) source frame and the
caller-provided destination buffer. -/
structure Memory where
  frame : Frame
  dest : List Nat
deriving DecidableEq, Repr

/-- The argument record of one `cdm->Decrypt(...)` invocation. -/
structure CdmCall where
  scheme : EncryptionScheme
  crypt_byte_block : Nat
  skip_byte_block : Nat
  block_offset : Nat
  key_id : List Nat
  iv : List Nat
  data : List Nat
deriving DecidableEq, Repr

/-- The abstract CDM: a status and an output byte string, both functions of
the full call parameters. -/
structure Cdm where
  status : CdmCall → DecryptStatus
  output : CdmCall → List Nat

/-- A CDM that always succeeds and copies the ciphertext through unchanged. -/
def succCdm : Cdm :=
  { status := fun _ => DecryptStatus.Success
    output := fun c => c.data }

/-- Undefined behaviour of the source, made explicit:
`divByZero` for `num_blocks / pattern_size` with `pattern_size = 0`;
`badIvLen` for `IncrementIv` on an IV buffer whose size is not 16
(the source's own `DCHECK_EQ(iv->size(), 16u)` fails there). -/
inductive Crash
  | divByZero
  | badIvLen
deriving DecidableEq, Repr

/-- Outcome of a run of `Decrypt`: a returned `Status`, or a crash. -/
inductive DOutcome
  | ret (s : Status)
  | crash (c : Crash)
deriving DecidableEq, Repr

/-- What a run of `Decrypt` produces: the outcome, the final memory, and the
chronological list of CDM calls performed. -/
structure DecryptResult where
  outcome : DOutcome
  mem : Memory
  calls : List CdmCall
deriving Repr

/-- `slice l pos n`: the `n` bytes of `l` starting at `pos` (pointer + length
in the source). -/
def slice (l : List Nat) (pos n : Nat) : List Nat :=
  (l.drop pos).take n

/-- Overwrite `dst` starting at `pos` with `bytes` (the effect of `memcpy`
into the destination buffer). -/
def setRegion (dst : List Nat) (pos : Nat) (bytes : List Nat) : List Nat :=
  dst.take pos ++ bytes ++ dst.drop (pos + bytes.length)

/-- Normalise a CDM output to exactly `n` written bytes. -/
def fit (l : List Nat) (n : Nat) : List Nat :=
  l.take n ++ List.replicate (n - l.length) 0

/-- Big-endian 32-bit read of the first four bytes (`ntohl` on a
`uint32_t` loaded from the buffer). -/
def be32 : List Nat → Nat
  | b0 :: b1 :: b2 :: b3 :: _ => ((b0 * 256 + b1) * 256 + b2) * 256 + b3
  | _ => 0

/-- Big-endian 32-bit write (`htonl` stored back into the buffer). -/
def u32be (n : Nat) : List Nat :=
  [n / 2 ^ 24 % 256, n / 2 ^ 16 % 256, n / 2 ^ 8 % 256, n % 256]

/-- `IncrementIv` (source lines 41-52): add `count` to the big-endian
counter in bytes 8..16; the carry out of the low 32-bit word goes into the
word at bytes 8..12, each word wrapping mod 2^32. -/
def IncrementIv (count : Nat) (iv : List Nat) : List Nat :=
  let hi := be32 (iv.drop 8)
  let lo := be32 (iv.drop 12)
  let hi' := if 2 ^ 32 - 1 - count < lo then (hi + 1) % 2 ^ 32 else hi
  iv.take 8 ++ u32be hi' ++ u32be ((lo + count) % 2 ^ 32)

/-- The low-64-bit counter of an IV, as the source reads it: the two
big-endian 32-bit words at bytes 8..12 and 12..16. -/
def ivCounter (iv : List Nat) : Nat :=
  be32 (iv.drop 8) * 2 ^ 32 + be32 (iv.drop 12)

/-- The scheme classification switch (source lines 114-141). -/
def classifyScheme (enc : EncryptionInfo) : Except Status EncryptionScheme :=
  if enc.scheme = kCencScheme then
    if enc.crypt_byte_block ≠ 0 ∨ enc.skip_byte_block ≠ 0 then
      Except.error Status.InvalidContainerData
    else Except.ok EncryptionScheme.AesCtr
  else if enc.scheme = kCensScheme then Except.ok EncryptionScheme.AesCtr
  else if enc.scheme = kCbc1Scheme then
    if enc.crypt_byte_block ≠ 0 ∨ enc.skip_byte_block ≠ 0 then
      Except.error Status.InvalidContainerData
    else Except.ok EncryptionScheme.AesCbc
  else if enc.scheme = kCbcsScheme then Except.ok EncryptionScheme.AesCbc
  else Except.error Status.NotSupported

/-- The status-mapping switch applied to every CDM result
(source lines 150-159 and 194-203). -/
def mapStatus : DecryptStatus → Status
  | DecryptStatus.Success => Status.Success
  | DecryptStatus.NotSupported => Status.NotSupported
  | DecryptStatus.KeyNotFound => Status.KeyNotFound
  | DecryptStatus.OtherError => Status.UnknownError

/-- Walker state: the memory plus the source cursor (`src`), destination
cursor (`dest`), `total_size`, `block_offset` and the mutable IV copy
`cur_iv` (source lines 161-165). -/
structure WalkState where
  mem : Memory
  src_pos : Nat
  dst_pos : Nat
  total_size : Nat
  block_offset : Nat
  cur_iv : List Nat
deriving Repr

/-- The clear-copy step of one loop iteration (source lines 177-181):
copy `clear` bytes, advance both cursors, shrink `total_size`. -/
def stepClear (st : WalkState) (clear : Nat) : WalkState :=
  { st with
    mem := { st.mem with
             dest := setRegion st.mem.dest st.dst_pos
                       (slice st.mem.frame.payload st.src_pos clear) }
    src_pos := st.src_pos + clear
    dst_pos := st.dst_pos + clear
    total_size := st.total_size - clear }

/-- The CDM writing its output into the destination region of the call. -/
def cdmWrite (st : WalkState) (bytes : List Nat) : WalkState :=
  { st with mem := { st.mem with
                     dest := setRegion st.mem.dest st.dst_pos bytes } }

/-- Advance past the protected region (source lines 240-242). -/
def stepAdvance (st : WalkState) (prot : Nat) : WalkState :=
  { st with
    src_pos := st.src_pos + prot
    dst_pos := st.dst_pos + prot
    total_size := st.total_size - prot }

/-- The argument record of the per-subsample CDM call
(source lines 188-193), built from the state after the clear copy. -/
def mkCall (sch : EncryptionScheme) (enc : EncryptionInfo) (st : WalkState)
    (prot : Nat) : CdmCall :=
  { scheme := sch
    crypt_byte_block := enc.crypt_byte_block
    skip_byte_block := enc.skip_byte_block
    block_offset := st.block_offset
    key_id := enc.key_id
    iv := st.cur_iv
    data := slice st.mem.frame.payload st.src_pos prot }

/-- The IV increment amount for the CTR schemes (source lines 206-223).
`uint32_t` assignments truncate mod 2^32.  `none` marks the division by
zero the source performs when `pattern_size = 0` under `cens`. -/
def incAmount (enc : EncryptionInfo) (block_offset prot : Nat) : Option Nat :=
  if enc.scheme = kCencScheme then
    some ((block_offset + prot) / kAesBlockSize % 2 ^ 32)
  else
    let num_blocks := prot / kAesBlockSize
    let pattern_size := enc.crypt_byte_block + enc.skip_byte_block
    if pattern_size = 0 then none
    else
      let inc := num_blocks / pattern_size * enc.crypt_byte_block % 2 ^ 32
      some (if enc.crypt_byte_block ≤ num_blocks % pattern_size then
              (inc + enc.crypt_byte_block) % 2 ^ 32
            else inc)

/-- Prepend a CDM call to the trace of a result. -/
def withCall (c : CdmCall) (r : DecryptResult) : DecryptResult :=
  { outcome := r.outcome, mem := r.mem, calls := c :: r.calls }

/-- The Subsample Walker: the `for` loop of source lines 166-243 plus the
leftover check of lines 245-248, by recursion on the subsample list.
`sch` is the classified `eme::EncryptionScheme`; the IV-update branches
test the wire tag `enc.scheme`, exactly as the source does. -/
def subWalk (cdm : Cdm) (enc : EncryptionInfo) (sch : EncryptionScheme) :
    List Subsample → WalkState → DecryptResult
  | [], st =>
    if st.total_size ≠ 0 then
      { outcome := DOutcome.ret Status.InvalidContainerData, mem := st.mem,
        calls := [] }
    else
      { outcome := DOutcome.ret Status.Success, mem := st.mem, calls := [] }
  | sub :: rest, st =>
    if st.total_size < sub.bytes_of_clear_data ∨
        st.total_size - sub.bytes_of_clear_data < sub.bytes_of_protected_data then
      { outcome := DOutcome.ret Status.InvalidContainerData, mem := st.mem,
        calls := [] }
    else
      let st1 := stepClear st sub.bytes_of_clear_data
      if sub.bytes_of_protected_data = 0 then
        subWalk cdm enc sch rest st1
      else
        let prot := sub.bytes_of_protected_data
        let call := mkCall sch enc st1 prot
        let st2 := cdmWrite st1 (fit (cdm.output call) prot)
        match cdm.status call with
        | DecryptStatus.NotSupported =>
          { outcome := DOutcome.ret Status.NotSupported, mem := st2.mem,
            calls := [call] }
        | DecryptStatus.KeyNotFound =>
          { outcome := DOutcome.ret Status.KeyNotFound, mem := st2.mem,
            calls := [call] }
        | DecryptStatus.OtherError =>
          { outcome := DOutcome.ret Status.UnknownError, mem := st2.mem,
            calls := [call] }
        | DecryptStatus.Success =>
          if enc.scheme = kCencScheme ∨ enc.scheme = kCensScheme then
            match incAmount enc st2.block_offset prot with
            | none =>
              { outcome := DOutcome.crash Crash.divByZero, mem := st2.mem,
                calls := [call] }
            | some inc =>
              if st2.cur_iv.length = 16 then
                withCall call (subWalk cdm enc sch rest
                  { stepAdvance st2 prot with
                    cur_iv := IncrementIv inc st2.cur_iv
                    block_offset := (st2.block_offset + prot) % kAesBlockSize })
              else
                { outcome := DOutcome.crash Crash.badIvLen, mem := st2.mem,
                  calls := [call] }
          else if enc.scheme = kCbc1Scheme then
            if prot < kAesBlockSize ∨ prot % kAesBlockSize ≠ 0 then
              { outcome := DOutcome.ret Status.InvalidContainerData,
                mem := st2.mem, calls := [call] }
            else
              withCall call (subWalk cdm enc sch rest
                { stepAdvance st2 prot with
                  cur_iv := slice st2.mem.frame.payload
                              (st2.src_pos + prot - kAesBlockSize)
                              kAesBlockSize })
          else
            withCall call (subWalk cdm enc sch rest (stepAdvance st2 prot))

/-- `FFmpegEncodedFrame::Decrypt` (source lines 91-252): extract the side
data, classify the scheme, then either the whole-payload CDM call (empty
subsample table, lines 143-159) or the Subsample Walker. -/
def Decrypt (cdm : Cdm) (mem : Memory) : DecryptResult :=
  match mem.frame.enc_info with
  | none =>
    { outcome := DOutcome.ret Status.UnknownError, mem := mem, calls := [] }
  | some enc =>
    match classifyScheme enc with
    | Except.error st =>
      { outcome := DOutcome.ret st, mem := mem, calls := [] }
    | Except.ok sch =>
      match enc.subsamples with
      | [] =>
        let call : CdmCall :=
          { scheme := sch
            crypt_byte_block := enc.crypt_byte_block
            skip_byte_block := enc.skip_byte_block
            block_offset := 0
            key_id := enc.key_id
            iv := enc.iv
            data := mem.frame.payload }
        let mem' := { mem with
                      dest := setRegion mem.dest 0
                        (fit (cdm.output call) mem.frame.payload.length) }
        { outcome := DOutcome.ret (mapStatus (cdm.status call)), mem := mem',
          calls := [call] }
      | s :: ss =>
        subWalk cdm enc sch (s :: ss)
          { mem := mem, src_pos := 0, dst_pos := 0,
            total_size := mem.frame.payload.length, block_offset := 0,
            cur_iv := enc.iv }

/-! ### Projection lemmas for the walker-state helpers -/

@[simp] theorem stepClear_cur_iv (st : WalkState) (c : Nat) :
    (stepClear st c).cur_iv = st.cur_iv := rfl
@[simp] theorem stepClear_block_offset (st : WalkState) (c : Nat) :
    (stepClear st c).block_offset = st.block_offset := rfl
@[simp] theorem stepClear_src_pos (st : WalkState) (c : Nat) :
    (stepClear st c).src_pos = st.src_pos + c := rfl
@[simp] theorem stepClear_dst_pos (st : WalkState) (c : Nat) :
    (stepClear st c).dst_pos = st.dst_pos + c := rfl
@[simp] theorem stepClear_total_size (st : WalkState) (c : Nat) :
    (stepClear st c).total_size = st.total_size - c := rfl
@[simp] theorem stepClear_frame (st : WalkState) (c : Nat) :
    (stepClear st c).mem.frame = st.mem.frame := rfl

@[simp] theorem cdmWrite_cur_iv (st : WalkState) (b : List Nat) :
    (cdmWrite st b).cur_iv = st.cur_iv := rfl
@[simp] theorem cdmWrite_block_offset (st : WalkState) (b : List Nat) :
    (cdmWrite st b).block_offset = st.block_offset := rfl
@[simp] theorem cdmWrite_src_pos (st : WalkState) (b : List Nat) :
    (cdmWrite st b).src_pos = st.src_pos := rfl
@[simp] theorem cdmWrite_dst_pos (st : WalkState) (b : List Nat) :
    (cdmWrite st b).dst_pos = st.dst_pos := rfl
@[simp] theorem cdmWrite_total_size (st : WalkState) (b : List Nat) :
    (cdmWrite st b).total_size = st.total_size := rfl
@[simp] theorem cdmWrite_frame (st : WalkState) (b : List Nat) :
    (cdmWrite st b).mem.frame = st.mem.frame := rfl

@[simp] theorem stepAdvance_cur_iv (st : WalkState) (p : Nat) :
    (stepAdvance st p).cur_iv = st.cur_iv := rfl
@[simp] theorem stepAdvance_block_offset (st : WalkState) (p : Nat) :
    (stepAdvance st p).block_offset = st.block_offset := rfl
@[simp] theorem stepAdvance_src_pos (st : WalkState) (p : Nat) :
    (stepAdvance st p).src_pos = st.src_pos + p := rfl
@[simp] theorem stepAdvance_dst_pos (st : WalkState) (p : Nat) :
    (stepAdvance st p).dst_pos = st.dst_pos + p := rfl
@[simp] theorem stepAdvance_total_size (st : WalkState) (p : Nat) :
    (stepAdvance st p).total_size = st.total_size - p := rfl
@[simp] theorem stepAdvance_frame (st : WalkState) (p : Nat) :
    (stepAdvance st p).mem.frame = st.mem.frame := rfl
@[simp] theorem stepAdvance_mem (st : WalkState) (p : Nat) :
    (stepAdvance st p).mem = st.mem := rfl

@[simp] theorem mkCall_block_offset (sch : EncryptionScheme) (enc : EncryptionInfo)
    (st : WalkState) (p : Nat) : (mkCall sch enc st p).block_offset = st.block_offset := rfl
@[simp] theorem mkCall_iv (sch : EncryptionScheme) (enc : EncryptionInfo)
    (st : WalkState) (p : Nat) : (mkCall sch enc st p).iv = st.cur_iv := rfl
@[simp] theorem mkCall_data (sch : EncryptionScheme) (enc : EncryptionInfo)
    (st : WalkState) (p : Nat) :
    (mkCall sch enc st p).data = slice st.mem.frame.payload st.src_pos p := rfl

@[simp] theorem withCall_outcome (c : CdmCall) (r : DecryptResult) :
    (withCall c r).outcome = r.outcome := rfl
@[simp] theorem withCall_mem (c : CdmCall) (r : DecryptResult) :
    (withCall c r).mem = r.mem := rfl
@[simp] theorem withCall_calls (c : CdmCall) (r : DecryptResult) :
    (withCall c r).calls = c :: r.calls := rfl

/-! ### Arithmetic lemmas about `IncrementIv` -/

theorem be32_lt (l : List Nat) (h : ∀ b ∈ l, b < 256) : be32 l < 2 ^ 32 := by
  rcases l with _ | ⟨b0, _ | ⟨b1, _ | ⟨b2, _ | ⟨b3, t⟩⟩⟩⟩ <;>
    simp only [be32] <;> try omega
  have h0 := h b0 (by simp)
  have h1 := h b1 (by simp)
  have h2 := h b2 (by simp)
  have h3 := h b3 (by simp)
  omega

theorem be32_u32be (n : Nat) (rest : List Nat) :
    be32 (u32be n ++ rest) = n % 2 ^ 32 := by
  simp only [u32be, List.cons_append, List.nil_append, be32]
  omega

theorem be32_u32be' (n : Nat) : be32 (u32be n) = n % 2 ^ 32 := by
  have := be32_u32be n []
  simpa using this

theorem u32be_length (n : Nat) : (u32be n).length = 4 := rfl

theorem u32be_mem_lt (n : Nat) : ∀ b ∈ u32be n, b < 256 := by
  intro b hb
  simp only [u32be, List.mem_cons, List.not_mem_nil, or_false] at hb
  rcases hb with h | h | h | h <;> subst h <;> omega

/-- Normal form of `IncrementIv` with the `let` bindings expanded. -/
theorem IncrementIv_eq (count : Nat) (iv : List Nat) :
    IncrementIv count iv =
      iv.take 8 ++
        (u32be (if 2 ^ 32 - 1 - count < be32 (iv.drop 12) then
                  (be32 (iv.drop 8) + 1) % 2 ^ 32
                else be32 (iv.drop 8)) ++
         u32be ((be32 (iv.drop 12) + count) % 2 ^ 32)) := by
  simp only [IncrementIv, List.append_assoc]

theorem IncrementIv_take8 (count : Nat) (iv : List Nat) (hlen : iv.length = 16) :
    (IncrementIv count iv).take 8 = iv.take 8 := by
  rw [IncrementIv_eq]
  have h8 : (iv.take 8).length = 8 := by simp [hlen]
  calc ((iv.take 8) ++ _).take 8
      = ((iv.take 8) ++ _).take (iv.take 8).length := by rw [h8]
    _ = iv.take 8 := List.take_left _ _

theorem IncrementIv_length (count : Nat) (iv : List Nat) (hlen : iv.length = 16) :
    (IncrementIv count iv).length = 16 := by
  rw [IncrementIv_eq]
  simp [hlen, u32be]

theorem IncrementIv_mem_lt (count : Nat) (iv : List Nat)
    (hb : ∀ b ∈ iv, b < 256) : ∀ b ∈ IncrementIv count iv, b < 256 := by
  rw [IncrementIv_eq]
  intro b hmem
  rcases List.mem_append.mp hmem with h | h
  · exact hb b (List.mem_of_mem_take h)
  · rcases List.mem_append.mp h with h' | h'
    · exact u32be_mem_lt _ b h'
    · exact u32be_mem_lt _ b h'

theorem IncrementIv_counter (count : Nat) (iv : List Nat)
    (hlen : iv.length = 16) (hb : ∀ b ∈ iv, b < 256) (hc : count < 2 ^ 32) :
    ivCounter (IncrementIv count iv) = (ivCounter iv + count) % 2 ^ 64 := by
  have hhi : be32 (iv.drop 8) < 2 ^ 32 :=
    be32_lt _ (fun b hb' => hb b (List.mem_of_mem_drop hb'))
  have hlo : be32 (iv.drop 12) < 2 ^ 32 :=
    be32_lt _ (fun b hb' => hb b (List.mem_of_mem_drop hb'))
  have h8 : (iv.take 8).length = 8 := by simp [hlen]
  rw [IncrementIv_eq]
  set hi := be32 (iv.drop 8) with hhi_def
  set lo := be32 (iv.drop 12) with hlo_def
  set hi' := if 2 ^ 32 - 1 - count < lo then (hi + 1) % 2 ^ 32 else hi with hidef
  have hdrop8 : ((iv.take 8) ++ (u32be hi' ++ u32be ((lo + count) % 2 ^ 32))).drop 8
      = u32be hi' ++ u32be ((lo + count) % 2 ^ 32) := by
    calc ((iv.take 8) ++ _).drop 8
        = ((iv.take 8) ++ _).drop (iv.take 8).length := by rw [h8]
      _ = _ := List.drop_left _ _
  have hdrop12 : ((iv.take 8) ++ (u32be hi' ++ u32be ((lo + count) % 2 ^ 32))).drop 12
      = u32be ((lo + count) % 2 ^ 32) := by
    have h12 : (12 : Nat) = 8 + 4 := rfl
    rw [h12, ← List.drop_drop, hdrop8]
    calc (u32be hi' ++ u32be ((lo + count) % 2 ^ 32)).drop 4
        = (u32be hi' ++ u32be ((lo + count) % 2 ^ 32)).drop (u32be hi').length := by
          rw [u32be_length]
      _ = _ := List.drop_left _ _
  unfold ivCounter
  rw [hdrop8, hdrop12, be32_u32be, be32_u32be', ← hhi_def, ← hlo_def]
  rw [hidef]
  split <;> omega

/-- Frame-order position of a CDM call: the byte position its
`(iv, block_offset)` pair denotes in the CTR keystream. -/
def posOf (c : CdmCall) : Nat :=
  16 * ivCounter c.iv + c.block_offset

/-! ### Step equations for the Subsample Walker -/

/-- The `cens` increment (source lines 211-223), with the `uint32_t`
truncations; only meaningful when `crypt + skip ≠ 0`. -/
def censIncAmount (crypt skip prot : Nat) : Nat :=
  if crypt ≤ prot / 16 % (crypt + skip) then
    (prot / 16 / (crypt + skip) * crypt % 2 ^ 32 + crypt) % 2 ^ 32
  else prot / 16 / (crypt + skip) * crypt % 2 ^ 32

theorem subWalk_nil (cdm : Cdm) (enc : EncryptionInfo) (sch : EncryptionScheme)
    (st : WalkState) :
    subWalk cdm enc sch [] st =
      if st.total_size ≠ 0 then
        { outcome := DOutcome.ret Status.InvalidContainerData, mem := st.mem,
          calls := [] }
      else
        { outcome := DOutcome.ret Status.Success, mem := st.mem, calls := [] } := by
  simp only [subWalk]

theorem subWalk_bounds (cdm : Cdm) (enc : EncryptionInfo) (sch : EncryptionScheme)
    (sub : Subsample) (rest : List Subsample) (st : WalkState)
    (hbad : st.total_size < sub.bytes_of_clear_data ∨
            st.total_size - sub.bytes_of_clear_data < sub.bytes_of_protected_data) :
    subWalk cdm enc sch (sub :: rest) st =
      { outcome := DOutcome.ret Status.InvalidContainerData, mem := st.mem,
        calls := [] } := by
  simp only [subWalk]
  rw [if_pos hbad]

theorem subWalk_skip (cdm : Cdm) (enc : EncryptionInfo) (sch : EncryptionScheme)
    (sub : Subsample) (rest : List Subsample) (st : WalkState)
    (hok : ¬(st.total_size < sub.bytes_of_clear_data ∨
             st.total_size - sub.bytes_of_clear_data < sub.bytes_of_protected_data))
    (hz : sub.bytes_of_protected_data = 0) :
    subWalk cdm enc sch (sub :: rest) st =
      subWalk cdm enc sch rest (stepClear st sub.bytes_of_clear_data) := by
  simp only [subWalk]
  rw [if_neg hok, if_pos hz]

theorem subWalk_cdm_fail (cdm : Cdm) (enc : EncryptionInfo) (sch : EncryptionScheme)
    (sub : Subsample) (rest : List Subsample) (st : WalkState) (s : DecryptStatus)
    (hok : ¬(st.total_size < sub.bytes_of_clear_data ∨
             st.total_size - sub.bytes_of_clear_data < sub.bytes_of_protected_data))
    (hp : 0 < sub.bytes_of_protected_data)
    (hst : cdm.status (mkCall sch enc (stepClear st sub.bytes_of_clear_data)
             sub.bytes_of_protected_data) = s)
    (hs : s ≠ DecryptStatus.Success) :
    subWalk cdm enc sch (sub :: rest) st =
      { outcome := DOutcome.ret (mapStatus s)
        mem := (cdmWrite (stepClear st sub.bytes_of_clear_data)
                 (fit (cdm.output (mkCall sch enc (stepClear st sub.bytes_of_clear_data)
                         sub.bytes_of_protected_data))
                   sub.bytes_of_protected_data)).mem
        calls := [mkCall sch enc (stepClear st sub.bytes_of_clear_data)
                   sub.bytes_of_protected_data] } := by
  have hpne : ¬ sub.bytes_of_protected_data = 0 := by omega
  simp only [subWalk]
  rw [if_neg hok, if_neg hpne, hst]
  cases s with
  | Success => exact absurd rfl hs
  | NotSupported => rfl
  | KeyNotFound => rfl
  | OtherError => rfl

theorem subWalk_cenc (cdm : Cdm) (enc : EncryptionInfo) (sch : EncryptionScheme)
    (sub : Subsample) (rest : List Subsample) (st : WalkState)
    (hsch : enc.scheme = kCencScheme)
    (hok : ¬(st.total_size < sub.bytes_of_clear_data ∨
             st.total_size - sub.bytes_of_clear_data < sub.bytes_of_protected_data))
    (hp : 0 < sub.bytes_of_protected_data)
    (hlen : st.cur_iv.length = 16)
    (hsucc : cdm.status (mkCall sch enc (stepClear st sub.bytes_of_clear_data)
               sub.bytes_of_protected_data) = DecryptStatus.Success) :
    subWalk cdm enc sch (sub :: rest) st =
      withCall (mkCall sch enc (stepClear st sub.bytes_of_clear_data)
                 sub.bytes_of_protected_data)
        (subWalk cdm enc sch rest
          { stepAdvance
              (cdmWrite (stepClear st sub.bytes_of_clear_data)
                (fit (cdm.output (mkCall sch enc (stepClear st sub.bytes_of_clear_data)
                        sub.bytes_of_protected_data))
                  sub.bytes_of_protected_data))
              sub.bytes_of_protected_data with
            cur_iv := IncrementIv
              ((st.block_offset + sub.bytes_of_protected_data) / 16 % 2 ^ 32)
              st.cur_iv
            block_offset := (st.block_offset + sub.bytes_of_protected_data) % 16 }) := by
  have hpne : ¬ sub.bytes_of_protected_data = 0 := by omega
  simp only [subWalk]
  rw [if_neg hok, if_neg hpne, hsucc]
  simp [incAmount, hsch, hlen, kCencScheme, kCensScheme, kAesBlockSize]

theorem subWalk_cenc_crash (cdm : Cdm) (enc : EncryptionInfo)
    (sch : EncryptionScheme) (sub : Subsample) (rest : List Subsample)
    (st : WalkState)
    (hsch : enc.scheme = kCencScheme)
    (hok : ¬(st.total_size < sub.bytes_of_clear_data ∨
             st.total_size - sub.bytes_of_clear_data < sub.bytes_of_protected_data))
    (hp : 0 < sub.bytes_of_protected_data)
    (hlen : st.cur_iv.length ≠ 16)
    (hsucc : cdm.status (mkCall sch enc (stepClear st sub.bytes_of_clear_data)
               sub.bytes_of_protected_data) = DecryptStatus.Success) :
    subWalk cdm enc sch (sub :: rest) st =
      { outcome := DOutcome.crash Crash.badIvLen
        mem := (cdmWrite (stepClear st sub.bytes_of_clear_data)
                 (fit (cdm.output (mkCall sch enc (stepClear st sub.bytes_of_clear_data)
                         sub.bytes_of_protected_data))
                   sub.bytes_of_protected_data)).mem
        calls := [mkCall sch enc (stepClear st sub.bytes_of_clear_data)
                   sub.bytes_of_protected_data] } := by
  have hpne : ¬ sub.bytes_of_protected_data = 0 := by omega
  simp only [subWalk]
  rw [if_neg hok, if_neg hpne, hsucc]
  simp [incAmount, hsch, hlen, kCencScheme, kCensScheme, kAesBlockSize]

theorem subWalk_cens (cdm : Cdm) (enc : EncryptionInfo) (sch : EncryptionScheme)
    (sub : Subsample) (rest : List Subsample) (st : WalkState)
    (hsch : enc.scheme = kCensScheme)
    (hps : enc.crypt_byte_block + enc.skip_byte_block ≠ 0)
    (hok : ¬(st.total_size < sub.bytes_of_clear_data ∨
             st.total_size - sub.bytes_of_clear_data < sub.bytes_of_protected_data))
    (hp : 0 < sub.bytes_of_protected_data)
    (hlen : st.cur_iv.length = 16)
    (hsucc : cdm.status (mkCall sch enc (stepClear st sub.bytes_of_clear_data)
               sub.bytes_of_protected_data) = DecryptStatus.Success) :
    subWalk cdm enc sch (sub :: rest) st =
      withCall (mkCall sch enc (stepClear st sub.bytes_of_clear_data)
                 sub.bytes_of_protected_data)
        (subWalk cdm enc sch rest
          { stepAdvance
              (cdmWrite (stepClear st sub.bytes_of_clear_data)
                (fit (cdm.output (mkCall sch enc (stepClear st sub.bytes_of_clear_data)
                        sub.bytes_of_protected_data))
                  sub.bytes_of_protected_data))
              sub.bytes_of_protected_data with
            cur_iv := IncrementIv
              (censIncAmount enc.crypt_byte_block enc.skip_byte_block
                sub.bytes_of_protected_data)
              st.cur_iv
            block_offset := (st.block_offset + sub.bytes_of_protected_data) % 16 }) := by
  have hpne : ¬ sub.bytes_of_protected_data = 0 := by omega
  simp only [subWalk]
  rw [if_neg hok, if_neg hpne, hsucc]
  simp [incAmount, censIncAmount, hsch, hps, hlen, kCencScheme, kCensScheme,
    kAesBlockSize]

theorem subWalk_cens_crash (cdm : Cdm) (enc : EncryptionInfo)
    (sch : EncryptionScheme) (sub : Subsample) (rest : List Subsample)
    (st : WalkState)
    (hsch : enc.scheme = kCensScheme)
    (hps : enc.crypt_byte_block + enc.skip_byte_block = 0)
    (hok : ¬(st.total_size < sub.bytes_of_clear_data ∨
             st.total_size - sub.bytes_of_clear_data < sub.bytes_of_protected_data))
    (hp : 0 < sub.bytes_of_protected_data)
    (hsucc : cdm.status (mkCall sch enc (stepClear st sub.bytes_of_clear_data)
               sub.bytes_of_protected_data) = DecryptStatus.Success) :
    subWalk cdm enc sch (sub :: rest) st =
      { outcome := DOutcome.crash Crash.divByZero
        mem := (cdmWrite (stepClear st sub.bytes_of_clear_data)
                 (fit (cdm.output (mkCall sch enc (stepClear st sub.bytes_of_clear_data)
                         sub.bytes_of_protected_data))
                   sub.bytes_of_protected_data)).mem
        calls := [mkCall sch enc (stepClear st sub.bytes_of_clear_data)
                   sub.bytes_of_protected_data] } := by
  have hpne : ¬ sub.bytes_of_protected_data = 0 := by omega
  simp only [subWalk]
  rw [if_neg hok, if_neg hpne, hsucc]
  simp [incAmount, hsch, hps, kCencScheme, kCensScheme, kAesBlockSize]

theorem subWalk_cens_badiv (cdm : Cdm) (enc : EncryptionInfo)
    (sch : EncryptionScheme) (sub : Subsample) (rest : List Subsample)
    (st : WalkState)
    (hsch : enc.scheme = kCensScheme)
    (hps : enc.crypt_byte_block + enc.skip_byte_block ≠ 0)
    (hok : ¬(st.total_size < sub.bytes_of_clear_data ∨
             st.total_size - sub.bytes_of_clear_data < sub.bytes_of_protected_data))
    (hp : 0 < sub.bytes_of_protected_data)
    (hlen : st.cur_iv.length ≠ 16)
    (hsucc : cdm.status (mkCall sch enc (stepClear st sub.bytes_of_clear_data)
               sub.bytes_of_protected_data) = DecryptStatus.Success) :
    subWalk cdm enc sch (sub :: rest) st =
      { outcome := DOutcome.crash Crash.badIvLen
        mem := (cdmWrite (stepClear st sub.bytes_of_clear_data)
                 (fit (cdm.output (mkCall sch enc (stepClear st sub.bytes_of_clear_data)
                         sub.bytes_of_protected_data))
                   sub.bytes_of_protected_data)).mem
        calls := [mkCall sch enc (stepClear st sub.bytes_of_clear_data)
                   sub.bytes_of_protected_data] } := by
  have hpne : ¬ sub.bytes_of_protected_data = 0 := by omega
  simp only [subWalk]
  rw [if_neg hok, if_neg hpne, hsucc]
  simp [incAmount, hsch, hps, hlen, kCencScheme, kCensScheme, kAesBlockSize]

theorem subWalk_cbc1_bad (cdm : Cdm) (enc : EncryptionInfo)
    (sch : EncryptionScheme) (sub : Subsample) (rest : List Subsample)
    (st : WalkState)
    (hsch : enc.scheme = kCbc1Scheme)
    (hok : ¬(st.total_size < sub.bytes_of_clear_data ∨
             st.total_size - sub.bytes_of_clear_data < sub.bytes_of_protected_data))
    (hp : 0 < sub.bytes_of_protected_data)
    (hbad : sub.bytes_of_protected_data < 16 ∨ sub.bytes_of_protected_data % 16 ≠ 0)
    (hsucc : cdm.status (mkCall sch enc (stepClear st sub.bytes_of_clear_data)
               sub.bytes_of_protected_data) = DecryptStatus.Success) :
    subWalk cdm enc sch (sub :: rest) st =
      { outcome := DOutcome.ret Status.InvalidContainerData
        mem := (cdmWrite (stepClear st sub.bytes_of_clear_data)
                 (fit (cdm.output (mkCall sch enc (stepClear st sub.bytes_of_clear_data)
                         sub.bytes_of_protected_data))
                   sub.bytes_of_protected_data)).mem
        calls := [mkCall sch enc (stepClear st sub.bytes_of_clear_data)
                   sub.bytes_of_protected_data] } := by
  have hpne : ¬ sub.bytes_of_protected_data = 0 := by omega
  simp only [subWalk]
  rw [if_neg hok, if_neg hpne, hsucc]
  simp [hsch, hbad, kCencScheme, kCensScheme, kCbc1Scheme, kAesBlockSize]

theorem subWalk_cbc1_good (cdm : Cdm) (enc : EncryptionInfo)
    (sch : EncryptionScheme) (sub : Subsample) (rest : List Subsample)
    (st : WalkState)
    (hsch : enc.scheme = kCbc1Scheme)
    (hok : ¬(st.total_size < sub.bytes_of_clear_data ∨
             st.total_size - sub.bytes_of_clear_data < sub.bytes_of_protected_data))
    (hgood : ¬(sub.bytes_of_protected_data < 16 ∨
               sub.bytes_of_protected_data % 16 ≠ 0))
    (hsucc : cdm.status (mkCall sch enc (stepClear st sub.bytes_of_clear_data)
               sub.bytes_of_protected_data) = DecryptStatus.Success) :
    subWalk cdm enc sch (sub :: rest) st =
      withCall (mkCall sch enc (stepClear st sub.bytes_of_clear_data)
                 sub.bytes_of_protected_data)
        (subWalk cdm enc sch rest
          { stepAdvance
              (cdmWrite (stepClear st sub.bytes_of_clear_data)
                (fit (cdm.output (mkCall sch enc (stepClear st sub.bytes_of_clear_data)
                        sub.bytes_of_protected_data))
                  sub.bytes_of_protected_data))
              sub.bytes_of_protected_data with
            cur_iv := slice st.mem.frame.payload
              (st.src_pos + sub.bytes_of_clear_data +
                sub.bytes_of_protected_data - 16) 16 }) := by
  have hpne : ¬ sub.bytes_of_protected_data = 0 := by omega
  simp only [subWalk]
  rw [if_neg hok, if_neg hpne, hsucc]
  simp [hsch, hgood, kCencScheme, kCensScheme, kCbc1Scheme, kAesBlockSize]

theorem subWalk_frame_eq (cdm : Cdm) (enc : EncryptionInfo)
    (sch : EncryptionScheme) :
    ∀ (subs : List Subsample) (st : WalkState),
      (subWalk cdm enc sch subs st).mem.frame = st.mem.frame := by
  intro subs
  induction subs with
  | nil =>
    intro st
    rw [subWalk_nil]
    split <;> rfl
  | cons sub rest ih =>
    intro st
    simp only [subWalk]
    repeat' split
    all_goals simp [ih]

theorem subWalk_cbcs (cdm : Cdm) (enc : EncryptionInfo) (sch : EncryptionScheme)
    (sub : Subsample) (rest : List Subsample) (st : WalkState)
    (hnc : ¬(enc.scheme = kCencScheme ∨ enc.scheme = kCensScheme))
    (hnb : ¬ enc.scheme = kCbc1Scheme)
    (hok : ¬(st.total_size < sub.bytes_of_clear_data ∨
             st.total_size - sub.bytes_of_clear_data < sub.bytes_of_protected_data))
    (hp : 0 < sub.bytes_of_protected_data)
    (hsucc : cdm.status (mkCall sch enc (stepClear st sub.bytes_of_clear_data)
               sub.bytes_of_protected_data) = DecryptStatus.Success) :
    subWalk cdm enc sch (sub :: rest) st =
      withCall (mkCall sch enc (stepClear st sub.bytes_of_clear_data)
                 sub.bytes_of_protected_data)
        (subWalk cdm enc sch rest
          (stepAdvance
            (cdmWrite (stepClear st sub.bytes_of_clear_data)
              (fit (cdm.output (mkCall sch enc (stepClear st sub.bytes_of_clear_data)
                      sub.bytes_of_protected_data))
                sub.bytes_of_protected_data))
            sub.bytes_of_protected_data)) := by
  have hpne : ¬ sub.bytes_of_protected_data = 0 := by omega
  simp only [subWalk]
  rw [if_neg hok, if_neg hpne, hsucc]
  rw [if_neg hnc, if_neg hnb]

/-! ### Concrete fixtures -/

/-- Inert metadata record used by the concrete test frames. -/
def meta0 : FrameMeta :=
  { pts := 0, dts := 0, duration := 0, stream_id := 0, timestamp_offset := 0,
    is_key_frame := false }

/-- A `cenc` packet whose `EncryptionInfo.iv` has length 8. -/
def encShortIv : EncryptionInfo :=
  { scheme := kCencScheme, crypt_byte_block := 0, skip_byte_block := 0,
    key_id := [7], iv := [1, 2, 3, 4, 5, 6, 7, 8], subsamples := [⟨0, 16⟩] }

def memShortIv : Memory :=
  { frame := { payload := List.replicate 16 0, enc_info := some encShortIv,
               meta := meta0 },
    dest := List.replicate 16 0 }

/-- A `cens` packet with the no-op pattern `crypt = skip = 0`. -/
def encZeroPattern : EncryptionInfo :=
  { scheme := kCensScheme, crypt_byte_block := 0, skip_byte_block := 0,
    key_id := [7], iv := List.replicate 16 0, subsamples := [⟨0, 16⟩] }

def memZeroPattern : Memory :=
  { frame := { payload := List.replicate 16 0, enc_info := some encZeroPattern,
               meta := meta0 },
    dest := List.replicate 16 0 }

/-- A CDM that always reports a missing key. -/
def kfCdm : Cdm :=
  { status := fun _ => DecryptStatus.KeyNotFound, output := fun _ => [] }

/-! ### Claim theorems -/

/-- **C10.** `decrypt` never modifies the frame: on every exit path
(success, every error, and even the crash outcomes) the packet payload,
side data, timestamps and all other frame fields are unchanged; all walker
state is local to the call and only the caller's destination buffer is
written. -/
theorem decrypt_never_modifies_frame (cdm : Cdm) (mem : Memory) :
    (Decrypt cdm mem).mem.frame = mem.frame := by
  unfold Decrypt
  split
  · rfl
  · split
    · rfl
    · split
      · rfl
      · rw [subWalk_frame_eq]

set_option maxRecDepth 40000 in
/-- **C1.** The claim fails on the code: the mutable IV copy is initialised
as `std::vector<uint8_t> cur_iv(enc_info->iv, enc_info->iv + enc_info->iv_size)`
with NO zero-padding, so for a packet whose IV has length 8 the first CDM
call receives an 8-byte IV (not 16), and the subsequent `IncrementIv`
violates the source's own `DCHECK_EQ(iv->size(), 16u)` (in a release build,
`iv->at(8)` on an 8-element vector throws).  The spec's zero-padding is the
documented intent, so this is a code bug; this theorem evaluates the code
at the failing input. -/
theorem decrypt_short_iv_not_padded :
    (Decrypt succCdm memShortIv).calls.map (fun c => c.iv) =
      [[1, 2, 3, 4, 5, 6, 7, 8]] ∧
    (Decrypt succCdm memShortIv).outcome = DOutcome.crash Crash.badIvLen := by
  constructor <;> decide

set_option maxRecDepth 40000 in
/-- **C7.** The claim fails on the code: under `cens` with
`crypt_byte_block = 0` and `skip_byte_block = 0`, a subsample with positive
`protected_bytes` and a successful CDM call reaches
`num_blocks / pattern_size` with `pattern_size = 0` — division by zero
(undefined behaviour in C++), instead of the claimed well-defined
cenc-identical treatment.  This theorem evaluates the code at the failing
input. -/
theorem decrypt_cens_zero_pattern_div_by_zero :
    (Decrypt succCdm memZeroPattern).outcome = DOutcome.crash Crash.divByZero ∧
    (Decrypt succCdm memZeroPattern).calls.length = 1 := by
  constructor <;> decide

/-- **C8.** With an empty subsample table, `decrypt` performs exactly one
CDM call covering the entire payload with `block_offset = 0` and the
packet's original IV, performs no IV update (the one recorded call carries
the original IV and nothing follows it), and returns the CDM status mapped
per the error taxonomy (`mapStatus`: Success to Success, NotSupported to
NotSupported, KeyNotFound to KeyNotFound, everything else to
UnknownError). -/
theorem decrypt_empty_subsamples_single_call (cdm : Cdm)
    (payload dest : List Nat) (fm : FrameMeta) (enc : EncryptionInfo)
    (sch : EncryptionScheme)
    (hsch : classifyScheme enc = Except.ok sch)
    (hsub : enc.subsamples = []) :
    (Decrypt cdm { frame := { payload := payload, enc_info := some enc,
                              meta := fm }, dest := dest }).calls =
      [{ scheme := sch, crypt_byte_block := enc.crypt_byte_block,
         skip_byte_block := enc.skip_byte_block, block_offset := 0,
         key_id := enc.key_id, iv := enc.iv, data := payload }] ∧
    (Decrypt cdm { frame := { payload := payload, enc_info := some enc,
                              meta := fm }, dest := dest }).outcome =
      DOutcome.ret (mapStatus (cdm.status
        { scheme := sch, crypt_byte_block := enc.crypt_byte_block,
          skip_byte_block := enc.skip_byte_block, block_offset := 0,
          key_id := enc.key_id, iv := enc.iv, data := payload })) := by
  simp only [Decrypt, hsch, hsub]
  constructor <;> trivial

/-- A `cenc` packet with an empty subsample table (whole-packet
encryption). -/
def encEmptySubs : EncryptionInfo :=
  { scheme := kCencScheme, crypt_byte_block := 0, skip_byte_block := 0,
    key_id := [9], iv := [5], subsamples := [] }

/-- Witness for C8 at a concrete input: a `cenc` packet with no subsamples
and a CDM that reports `KeyNotFound`; the single call covers the payload
and the result is the mapped `KeyNotFound`. -/
theorem decrypt_empty_subsamples_single_call_witness :
    (Decrypt kfCdm { frame := { payload := [1, 2, 3],
                                enc_info := some encEmptySubs,
                                meta := meta0 }, dest := [0, 0, 0] }).calls =
      [{ scheme := EncryptionScheme.AesCtr,
         crypt_byte_block := encEmptySubs.crypt_byte_block,
         skip_byte_block := encEmptySubs.skip_byte_block, block_offset := 0,
         key_id := encEmptySubs.key_id, iv := encEmptySubs.iv,
         data := [1, 2, 3] }] ∧
    (Decrypt kfCdm { frame := { payload := [1, 2, 3],
                                enc_info := some encEmptySubs,
                                meta := meta0 }, dest := [0, 0, 0] }).outcome =
      DOutcome.ret (mapStatus (kfCdm.status
        { scheme := EncryptionScheme.AesCtr,
          crypt_byte_block := encEmptySubs.crypt_byte_block,
          skip_byte_block := encEmptySubs.skip_byte_block, block_offset := 0,
          key_id := encEmptySubs.key_id, iv := encEmptySubs.iv,
          data := [1, 2, 3] })) :=
  decrypt_empty_subsamples_single_call kfCdm [1, 2, 3] [0, 0, 0] meta0
    encEmptySubs EncryptionScheme.AesCtr rfl rfl

/-- **C2.** Under the `cenc` scheme, after each subsample whose
`protected_bytes` is positive and whose CDM call succeeds, the IV counter
(the big-endian 64-bit integer in bytes 8..16) is incremented by
`(block_offset + protected_bytes) / 16` and `block_offset` becomes
`(block_offset + protected_bytes) mod 16`, where `block_offset` is the
value presented to that subsample's CDM call (the walk starts at 0, so the
first protected subsample presents 0). -/
theorem cenc_iv_update_after_subsample
    (cdm : Cdm) (enc : EncryptionInfo) (sch : EncryptionScheme)
    (sub : Subsample) (rest : List Subsample) (st : WalkState)
    (hsch : enc.scheme = kCencScheme)
    (hok : ¬(st.total_size < sub.bytes_of_clear_data ∨
             st.total_size - sub.bytes_of_clear_data < sub.bytes_of_protected_data))
    (hp : 0 < sub.bytes_of_protected_data)
    (hp32 : sub.bytes_of_protected_data < 2 ^ 32)
    (hbo : st.block_offset < 16)
    (hlen : st.cur_iv.length = 16)
    (hb : ∀ b ∈ st.cur_iv, b < 256)
    (hsucc : cdm.status (mkCall sch enc (stepClear st sub.bytes_of_clear_data)
               sub.bytes_of_protected_data) = DecryptStatus.Success) :
    ∃ st' : WalkState,
      subWalk cdm enc sch (sub :: rest) st =
        withCall (mkCall sch enc (stepClear st sub.bytes_of_clear_data)
                   sub.bytes_of_protected_data)
          (subWalk cdm enc sch rest st') ∧
      (mkCall sch enc (stepClear st sub.bytes_of_clear_data)
          sub.bytes_of_protected_data).block_offset = st.block_offset ∧
      ivCounter st'.cur_iv =
        (ivCounter st.cur_iv +
          (st.block_offset + sub.bytes_of_protected_data) / 16) % 2 ^ 64 ∧
      st'.block_offset = (st.block_offset + sub.bytes_of_protected_data) % 16 := by
  have hc32 : (st.block_offset + sub.bytes_of_protected_data) / 16 % 2 ^ 32
      = (st.block_offset + sub.bytes_of_protected_data) / 16 := by omega
  refine ⟨_, subWalk_cenc cdm enc sch sub rest st hsch hok hp hlen hsucc,
    rfl, ?_, rfl⟩
  show ivCounter (IncrementIv
    ((st.block_offset + sub.bytes_of_protected_data) / 16 % 2 ^ 32)
    st.cur_iv) = _
  rw [hc32, IncrementIv_counter _ _ hlen hb (by omega)]

/-- A `cenc` packet used to instantiate C2. -/
def encC2 : EncryptionInfo :=
  { scheme := kCencScheme, crypt_byte_block := 0, skip_byte_block := 0,
    key_id := [1], iv := List.replicate 16 0, subsamples := [⟨4, 20⟩, ⟨4, 20⟩] }

/-- A mid-walk state of the C2 packet: the second subsample is next,
`block_offset = 4` was carried over and the counter was advanced once. -/
def stC2 : WalkState :=
  { mem := { frame := { payload := List.range 48, enc_info := some encC2,
                        meta := meta0 },
             dest := List.replicate 48 0 },
    src_pos := 24, dst_pos := 24, total_size := 24, block_offset := 4,
    cur_iv := List.replicate 15 0 ++ [1] }

/-- Witness for C2: the second `(4, 20)` subsample of the scenario-2 packet,
presented with `block_offset = 4`; afterwards the counter has advanced by
`(4 + 20) / 16 = 1` and `block_offset` is `24 mod 16 = 8`. -/
theorem cenc_iv_update_after_subsample_witness :
    ∃ st' : WalkState,
      subWalk succCdm encC2 EncryptionScheme.AesCtr [⟨4, 20⟩] stC2 =
        withCall (mkCall EncryptionScheme.AesCtr encC2 (stepClear stC2 4) 20)
          (subWalk succCdm encC2 EncryptionScheme.AesCtr [] st') ∧
      (mkCall EncryptionScheme.AesCtr encC2 (stepClear stC2 4) 20).block_offset
        = stC2.block_offset ∧
      ivCounter st'.cur_iv =
        (ivCounter stC2.cur_iv + (stC2.block_offset + 20) / 16) % 2 ^ 64 ∧
      st'.block_offset = (stC2.block_offset + 20) % 16 :=
  cenc_iv_update_after_subsample succCdm encC2 EncryptionScheme.AesCtr
    ⟨4, 20⟩ [] stC2 rfl (by decide) (by decide) (by decide) (by decide)
    (by decide) (by decide) rfl

/-- **C3.** Under the `cens` scheme with a non-zero pattern, after each
subsample whose `protected_bytes` is positive and whose CDM call succeeds,
the IV counter is incremented by
`(num_blocks / pattern_size) * crypt_byte_block`, plus `crypt_byte_block`
more exactly when `num_blocks mod pattern_size >= crypt_byte_block`, where
`num_blocks = protected_bytes / 16` and
`pattern_size = crypt_byte_block + skip_byte_block`; `block_offset` then
becomes `(block_offset + protected_bytes) mod 16`.  (The `hsmall` bound
discharges the `uint32_t` truncation of the source.) -/
theorem cens_iv_update_after_subsample
    (cdm : Cdm) (enc : EncryptionInfo) (sch : EncryptionScheme)
    (sub : Subsample) (rest : List Subsample) (st : WalkState)
    (hsch : enc.scheme = kCensScheme)
    (hps : enc.crypt_byte_block + enc.skip_byte_block ≠ 0)
    (hok : ¬(st.total_size < sub.bytes_of_clear_data ∨
             st.total_size - sub.bytes_of_clear_data < sub.bytes_of_protected_data))
    (hp : 0 < sub.bytes_of_protected_data)
    (hlen : st.cur_iv.length = 16)
    (hb : ∀ b ∈ st.cur_iv, b < 256)
    (hsmall : sub.bytes_of_protected_data / 16 /
        (enc.crypt_byte_block + enc.skip_byte_block) * enc.crypt_byte_block +
        enc.crypt_byte_block < 2 ^ 32)
    (hsucc : cdm.status (mkCall sch enc (stepClear st sub.bytes_of_clear_data)
               sub.bytes_of_protected_data) = DecryptStatus.Success) :
    ∃ st' : WalkState,
      subWalk cdm enc sch (sub :: rest) st =
        withCall (mkCall sch enc (stepClear st sub.bytes_of_clear_data)
                   sub.bytes_of_protected_data)
          (subWalk cdm enc sch rest st') ∧
      ivCounter st'.cur_iv =
        (ivCounter st.cur_iv +
          (sub.bytes_of_protected_data / 16 /
              (enc.crypt_byte_block + enc.skip_byte_block) *
              enc.crypt_byte_block +
            (if enc.crypt_byte_block ≤ sub.bytes_of_protected_data / 16 %
                  (enc.crypt_byte_block + enc.skip_byte_block) then
              enc.crypt_byte_block
            else 0))) % 2 ^ 64 ∧
      st'.block_offset = (st.block_offset + sub.bytes_of_protected_data) % 16 := by
  have hval : censIncAmount enc.crypt_byte_block enc.skip_byte_block
      sub.bytes_of_protected_data =
      sub.bytes_of_protected_data / 16 /
          (enc.crypt_byte_block + enc.skip_byte_block) * enc.crypt_byte_block +
        (if enc.crypt_byte_block ≤ sub.bytes_of_protected_data / 16 %
              (enc.crypt_byte_block + enc.skip_byte_block) then
          enc.crypt_byte_block
        else 0) := by
    unfold censIncAmount
    split <;> simp <;> omega
  refine ⟨_, subWalk_cens cdm enc sch sub rest st hsch hps hok hp hlen hsucc,
    ?_, rfl⟩
  show ivCounter (IncrementIv (censIncAmount enc.crypt_byte_block
    enc.skip_byte_block sub.bytes_of_protected_data) st.cur_iv) = _
  rw [IncrementIv_counter _ _ hlen hb (by rw [hval]; split <;> omega), hval]

/-- The spec's scenario-3 `cens` packet: pattern `1:9`, one protected
subsample of 160 bytes followed by one of 16 bytes. -/
def encC3 : EncryptionInfo :=
  { scheme := kCensScheme, crypt_byte_block := 1, skip_byte_block := 9,
    key_id := [2], iv := List.replicate 16 0, subsamples := [⟨0, 160⟩, ⟨0, 16⟩] }

def stC3 : WalkState :=
  { mem := { frame := { payload := List.replicate 176 7, enc_info := some encC3,
                        meta := meta0 },
             dest := List.replicate 176 0 },
    src_pos := 0, dst_pos := 0, total_size := 176, block_offset := 0,
    cur_iv := List.replicate 16 0 }

/-- Witness for C3: the `(0, 160)` subsample with pattern `1:9`:
`num_blocks = 10`, `pattern_size = 10`, increment `= 1 * 1 + 0 = 1`. -/
theorem cens_iv_update_after_subsample_witness :
    ∃ st' : WalkState,
      subWalk succCdm encC3 EncryptionScheme.AesCtr [⟨0, 160⟩, ⟨0, 16⟩] stC3 =
        withCall (mkCall EncryptionScheme.AesCtr encC3 (stepClear stC3 0) 160)
          (subWalk succCdm encC3 EncryptionScheme.AesCtr [⟨0, 16⟩] st') ∧
      ivCounter st'.cur_iv =
        (ivCounter stC3.cur_iv +
          (160 / 16 / (1 + 9) * 1 + (if 1 ≤ 160 / 16 % (1 + 9) then 1 else 0)))
          % 2 ^ 64 ∧
      st'.block_offset = (stC3.block_offset + 160) % 16 :=
  cens_iv_update_after_subsample succCdm encC3 EncryptionScheme.AesCtr
    ⟨0, 160⟩ [⟨0, 16⟩] stC3 rfl (by decide) (by decide) (by decide) (by decide)
    (by decide) (by decide) rfl

/-- **C9.** Under `cbc1`, when a subsample's `protected_bytes` is positive
but less than 16 or not a multiple of 16, the CDM is still invoked on that
subsample before the block-size check, and `InvalidContainerData` is
returned only if that CDM call succeeds; a non-Success CDM status for that
subsample is mapped and returned instead, taking precedence over
`InvalidContainerData`. -/
theorem cbc1_bad_block_cdm_precedence
    (cdm : Cdm) (enc : EncryptionInfo) (sch : EncryptionScheme)
    (sub : Subsample) (rest : List Subsample) (st : WalkState)
    (hsch : enc.scheme = kCbc1Scheme)
    (hok : ¬(st.total_size < sub.bytes_of_clear_data ∨
             st.total_size - sub.bytes_of_clear_data < sub.bytes_of_protected_data))
    (hp : 0 < sub.bytes_of_protected_data)
    (hbad : sub.bytes_of_protected_data < 16 ∨
            sub.bytes_of_protected_data % 16 ≠ 0) :
    (subWalk cdm enc sch (sub :: rest) st).calls =
      [mkCall sch enc (stepClear st sub.bytes_of_clear_data)
        sub.bytes_of_protected_data] ∧
    (subWalk cdm enc sch (sub :: rest) st).outcome =
      (match cdm.status (mkCall sch enc (stepClear st sub.bytes_of_clear_data)
               sub.bytes_of_protected_data) with
       | DecryptStatus.Success => DOutcome.ret Status.InvalidContainerData
       | s => DOutcome.ret (mapStatus s)) := by
  cases h : cdm.status (mkCall sch enc (stepClear st sub.bytes_of_clear_data)
      sub.bytes_of_protected_data) with
  | Success =>
    rw [subWalk_cbc1_bad cdm enc sch sub rest st hsch hok hp hbad h]
    exact ⟨rfl, rfl⟩
  | NotSupported =>
    rw [subWalk_cdm_fail cdm enc sch sub rest st _ hok hp h (by simp)]
    exact ⟨rfl, rfl⟩
  | KeyNotFound =>
    rw [subWalk_cdm_fail cdm enc sch sub rest st _ hok hp h (by simp)]
    exact ⟨rfl, rfl⟩
  | OtherError =>
    rw [subWalk_cdm_fail cdm enc sch sub rest st _ hok hp h (by simp)]
    exact ⟨rfl, rfl⟩

/-- The spec's scenario-4 `cbc1` packet with a 17-byte protected region. -/
def encC9 : EncryptionInfo :=
  { scheme := kCbc1Scheme, crypt_byte_block := 0, skip_byte_block := 0,
    key_id := [3], iv := List.replicate 16 9, subsamples := [⟨0, 17⟩] }

def stC9 : WalkState :=
  { mem := { frame := { payload := List.range 17, enc_info := some encC9,
                        meta := meta0 },
             dest := List.replicate 17 0 },
    src_pos := 0, dst_pos := 0, total_size := 17, block_offset := 0,
    cur_iv := List.replicate 16 9 }

/-- Witness for C9: the 17-byte `cbc1` subsample with a `KeyNotFound` CDM.
The CDM is invoked and its status takes precedence: the result is
`KeyNotFound`, not `InvalidContainerData`. -/
theorem cbc1_bad_block_cdm_precedence_witness :
    (subWalk kfCdm encC9 EncryptionScheme.AesCbc [⟨0, 17⟩] stC9).calls =
      [mkCall EncryptionScheme.AesCbc encC9 (stepClear stC9 0) 17] ∧
    (subWalk kfCdm encC9 EncryptionScheme.AesCbc [⟨0, 17⟩] stC9).outcome =
      (match kfCdm.status (mkCall EncryptionScheme.AesCbc encC9
               (stepClear stC9 0) 17) with
       | DecryptStatus.Success => DOutcome.ret Status.InvalidContainerData
       | s => DOutcome.ret (mapStatus s)) :=
  cbc1_bad_block_cdm_precedence kfCdm encC9 EncryptionScheme.AesCbc
    ⟨0, 17⟩ [] stC9 rfl (by decide) (by decide) (by decide)

/-! ### C4: cbc1 chaining -/

/-- The last 16 bytes of a byte string. -/
def lastBlock (l : List Nat) : List Nat :=
  l.drop (l.length - 16)

theorem lastBlock_slice (l : List Nat) (s p : Nat) (h16 : 16 ≤ p)
    (hlen : s + p ≤ l.length) :
    lastBlock (slice l s p) = slice l (s + p - 16) 16 := by
  unfold lastBlock slice
  have hl : ((l.drop s).take p).length = p := by
    simp only [List.length_take, List.length_drop]
    omega
  rw [hl, List.drop_take, List.drop_drop]
  have h1 : s + (p - 16) = s + p - 16 := by omega
  have h2 : p - (p - 16) = 16 := by omega
  rw [h1, h2]

/-- Chain invariant of the `cbc1` walk: every call in the produced trace
after the first carries as IV the last 16 bytes of the previous call's
input data, and the first call carries the entry IV. -/
theorem subWalk_cbc1_chain (cdm : Cdm) (enc : EncryptionInfo)
    (sch : EncryptionScheme) (hsch : enc.scheme = kCbc1Scheme) :
    ∀ (subs : List Subsample) (st : WalkState),
      (∀ s ∈ subs, s.bytes_of_protected_data % 16 = 0) →
      st.src_pos + st.total_size = st.mem.frame.payload.length →
      List.Chain' (fun a b => b.iv = lastBlock a.data)
        (subWalk cdm enc sch subs st).calls ∧
      ∀ c ∈ (subWalk cdm enc sch subs st).calls.head?, c.iv = st.cur_iv := by
  intro subs
  induction subs with
  | nil =>
    intro st _ _
    rw [subWalk_nil]
    split <;> simp
  | cons sub rest ih =>
    intro st hprot hinv
    have hprot0 : sub.bytes_of_protected_data % 16 = 0 :=
      hprot sub (List.mem_cons_self _ _)
    have hrest : ∀ s ∈ rest, s.bytes_of_protected_data % 16 = 0 :=
      fun s hs => hprot s (List.mem_cons_of_mem _ hs)
    by_cases hbad : st.total_size < sub.bytes_of_clear_data ∨
        st.total_size - sub.bytes_of_clear_data < sub.bytes_of_protected_data
    · rw [subWalk_bounds cdm enc sch sub rest st hbad]
      simp
    · by_cases hz : sub.bytes_of_protected_data = 0
      · rw [subWalk_skip cdm enc sch sub rest st hbad hz]
        exact ih (stepClear st sub.bytes_of_clear_data) hrest (by simp; omega)
      · have hp : 0 < sub.bytes_of_protected_data := by omega
        have hgood : ¬(sub.bytes_of_protected_data < 16 ∨
            sub.bytes_of_protected_data % 16 ≠ 0) := by omega
        cases h : cdm.status (mkCall sch enc
            (stepClear st sub.bytes_of_clear_data)
            sub.bytes_of_protected_data) with
        | Success =>
          rw [subWalk_cbc1_good cdm enc sch sub rest st hsch hbad hgood h]
          set stN : WalkState :=
            { stepAdvance
                (cdmWrite (stepClear st sub.bytes_of_clear_data)
                  (fit (cdm.output (mkCall sch enc
                          (stepClear st sub.bytes_of_clear_data)
                          sub.bytes_of_protected_data))
                    sub.bytes_of_protected_data))
                sub.bytes_of_protected_data with
              cur_iv := slice st.mem.frame.payload
                (st.src_pos + sub.bytes_of_clear_data +
                  sub.bytes_of_protected_data - 16) 16 } with hstN
          have hinvN : stN.src_pos + stN.total_size =
              stN.mem.frame.payload.length := by
            rw [hstN]
            simp
            omega
          obtain ⟨hchain, hhead⟩ := ih stN hrest hinvN
          constructor
          · rw [withCall_calls, List.chain'_cons']
            refine ⟨?_, hchain⟩
            intro b hb
            rw [hhead b hb]
            simp only [hstN, mkCall_data, stepClear_src_pos, stepClear_frame]
            rw [lastBlock_slice _ _ _ (by omega) (by omega)]
          · simp
        | NotSupported =>
          rw [subWalk_cdm_fail cdm enc sch sub rest st _ hbad hp h (by simp)]
          simp
        | KeyNotFound =>
          rw [subWalk_cdm_fail cdm enc sch sub rest st _ hbad hp h (by simp)]
          simp
        | OtherError =>
          rw [subWalk_cdm_fail cdm enc sch sub rest st _ hbad hp h (by simp)]
          simp

/-- **C4.** Under `cbc1`, for every frame whose protected subsamples each
have `protected_bytes` a positive multiple of 16, the IV presented to the
CDM for protected subsample `k+1` equals the last 16 bytes of the input
(ciphertext, pre-decryption) protected region of protected subsample `k`:
consecutive calls of the CDM-call trace are chained by
`lastBlock` of the call's input `data` (the walker reads the immutable
frame payload, so `data` is the pre-decryption region).  A subsample with
`protected_bytes = 0` makes no call, so the hypothesis
`protected_bytes mod 16 = 0` for every subsample says exactly that every
protected subsample is a positive multiple of 16. -/
theorem cbc1_chaining (cdm : Cdm) (payload dest : List Nat) (fm : FrameMeta)
    (enc : EncryptionInfo)
    (hsch : enc.scheme = kCbc1Scheme)
    (hprot : ∀ s ∈ enc.subsamples, s.bytes_of_protected_data % 16 = 0) :
    List.Chain' (fun a b => b.iv = lastBlock a.data)
      (Decrypt cdm { frame := { payload := payload, enc_info := some enc,
                                meta := fm }, dest := dest }).calls := by
  unfold Decrypt
  split
  · next heq => cases heq
  · next enc' heq =>
    cases heq
    split
    · simp
    · split
      · simp
      · next s ss hss =>
        refine (subWalk_cbc1_chain cdm enc _ hsch (s :: ss) _ ?_ ?_).1
        · rw [← hss]
          exact hprot
        · simp

/-- The spec's scenario-5 `cbc1` packet: 32 bytes, two `(0, 16)`
subsamples. -/
def encC4 : EncryptionInfo :=
  { scheme := kCbc1Scheme, crypt_byte_block := 0, skip_byte_block := 0,
    key_id := [4], iv := List.replicate 16 9, subsamples := [⟨0, 16⟩, ⟨0, 16⟩] }

set_option maxRecDepth 40000 in
/-- Witness for C4 on the scenario-5 packet (the second call's IV is bytes
0..16 of the payload, i.e. the first call's ciphertext). -/
theorem cbc1_chaining_witness :
    List.Chain' (fun a b => b.iv = lastBlock a.data)
      (Decrypt succCdm { frame := { payload := List.range 32,
                                    enc_info := some encC4,
                                    meta := meta0 },
                         dest := List.replicate 32 0 }).calls :=
  cbc1_chaining succCdm (List.range 32) (List.replicate 32 0) meta0 encC4
    rfl (by decide)

/-! ### C5: CTR counter monotonicity -/

/-- Total protected bytes of a subsample table. -/
def sumProt (l : List Subsample) : Nat :=
  (l.map (fun s => s.bytes_of_protected_data)).sum

/-- A `cens` packet on which the same IV is presented to two successive
CDM calls: pattern `1:9`, subsamples `(0,15)` then `(0,1)`.  The first
protected region is 15 bytes, so `num_blocks = 0` and the counter is not
incremented; only `block_offset` moves to 15. -/
def encC5 : EncryptionInfo :=
  { scheme := kCensScheme, crypt_byte_block := 1, skip_byte_block := 9,
    key_id := [5], iv := List.replicate 16 0, subsamples := [⟨0, 15⟩, ⟨0, 1⟩] }

def memC5 : Memory :=
  { frame := { payload := List.replicate 16 3, enc_info := some encC5,
               meta := meta0 },
    dest := List.replicate 16 0 }

set_option maxRecDepth 40000 in
/-- **C5, counterexample.** The claim "no IV value is ever presented twice
within one frame" (stated for `cenc` or `cens`) is false at this concrete
`cens` input: both CDM calls receive the all-zero IV. -/
theorem ctr_iv_repeated_counterexample :
    (Decrypt succCdm memC5).calls.map (fun c => (c.iv, c.block_offset)) =
      [(List.replicate 16 0, 0), (List.replicate 16 0, 15)] ∧
    (Decrypt succCdm memC5).outcome = DOutcome.ret Status.Success := by
  constructor <;> decide

theorem subWalk_cenc_pairwise (cdm : Cdm) (enc : EncryptionInfo)
    (sch : EncryptionScheme) (hsch : enc.scheme = kCencScheme) :
    ∀ (subs : List Subsample) (st : WalkState),
      st.cur_iv.length = 16 → (∀ b ∈ st.cur_iv, b < 256) →
      st.block_offset < 16 →
      (∀ s ∈ subs, s.bytes_of_protected_data < 2 ^ 32) →
      16 * ivCounter st.cur_iv + st.block_offset + sumProt subs < 16 * 2 ^ 64 →
      (∀ c ∈ (subWalk cdm enc sch subs st).calls,
        16 * ivCounter st.cur_iv + st.block_offset ≤ posOf c) ∧
      List.Pairwise (fun a b => posOf a < posOf b)
        (subWalk cdm enc sch subs st).calls := by
  intro subs
  induction subs with
  | nil =>
    intro st _ _ _ _ _
    rw [subWalk_nil]
    split <;> simp
  | cons sub rest ih =>
    intro st hlen hb hbo hp32 hover
    have hp32s : sub.bytes_of_protected_data < 2 ^ 32 :=
      hp32 sub (List.mem_cons_self _ _)
    have hp32r : ∀ s ∈ rest, s.bytes_of_protected_data < 2 ^ 32 :=
      fun s hs => hp32 s (List.mem_cons_of_mem _ hs)
    have hsum : sumProt (sub :: rest) =
        sub.bytes_of_protected_data + sumProt rest := by
      simp [sumProt]
    by_cases hbad : st.total_size < sub.bytes_of_clear_data ∨
        st.total_size - sub.bytes_of_clear_data < sub.bytes_of_protected_data
    · rw [subWalk_bounds cdm enc sch sub rest st hbad]
      simp
    · by_cases hz : sub.bytes_of_protected_data = 0
      · rw [subWalk_skip cdm enc sch sub rest st hbad hz]
        exact ih (stepClear st sub.bytes_of_clear_data) hlen hb hbo hp32r
          (by simp only [stepClear_cur_iv, stepClear_block_offset]; omega)
      · have hp : 0 < sub.bytes_of_protected_data := by omega
        cases h : cdm.status (mkCall sch enc
            (stepClear st sub.bytes_of_clear_data)
            sub.bytes_of_protected_data) with
        | Success =>
          rw [subWalk_cenc cdm enc sch sub rest st hsch hbad hp hlen h]
          set p := sub.bytes_of_protected_data with hpdef
          have hc32 : (st.block_offset + p) / 16 % 2 ^ 32 =
              (st.block_offset + p) / 16 := by omega
          set stN : WalkState :=
            { stepAdvance
                (cdmWrite (stepClear st sub.bytes_of_clear_data)
                  (fit (cdm.output (mkCall sch enc
                          (stepClear st sub.bytes_of_clear_data) p)) p))
                p with
              cur_iv := IncrementIv ((st.block_offset + p) / 16 % 2 ^ 32)
                st.cur_iv
              block_offset := (st.block_offset + p) % 16 } with hstN
          have hcntN : ivCounter stN.cur_iv =
              (ivCounter st.cur_iv + (st.block_offset + p) / 16) % 2 ^ 64 := by
            rw [hstN]
            show ivCounter (IncrementIv _ st.cur_iv) = _
            rw [hc32, IncrementIv_counter _ _ hlen hb (by omega)]
          have hnoov : ivCounter st.cur_iv + (st.block_offset + p) / 16 <
              2 ^ 64 := by
            rw [hsum] at hover
            omega
          have hcntN' : ivCounter stN.cur_iv =
              ivCounter st.cur_iv + (st.block_offset + p) / 16 := by
            rw [hcntN, Nat.mod_eq_of_lt hnoov]
          have hposN : 16 * ivCounter stN.cur_iv + stN.block_offset =
              16 * ivCounter st.cur_iv + st.block_offset + p := by
            have hbN : stN.block_offset = (st.block_offset + p) % 16 := rfl
            rw [hcntN', hbN]
            omega
          have hlenN : stN.cur_iv.length = 16 := by
            rw [hstN]
            exact IncrementIv_length _ _ hlen
          have hbN : ∀ b ∈ stN.cur_iv, b < 256 := by
            rw [hstN]
            exact IncrementIv_mem_lt _ _ hb
          have hboN : stN.block_offset < 16 := by
            show (st.block_offset + p) % 16 < 16
            omega
          have hoverN : 16 * ivCounter stN.cur_iv + stN.block_offset +
              sumProt rest < 16 * 2 ^ 64 := by
            rw [hposN]
            rw [hsum] at hover
            omega
          obtain ⟨ihLB, ihPW⟩ := ih stN hlenN hbN hboN hp32r hoverN
          have hposCall : posOf (mkCall sch enc
              (stepClear st sub.bytes_of_clear_data) p) =
              16 * ivCounter st.cur_iv + st.block_offset := by
            simp [posOf]
          constructor
          · intro c hc
            rw [withCall_calls] at hc
            rcases List.mem_cons.mp hc with hceq | hctail
            · rw [hceq, hposCall]
            · have := ihLB c hctail
              rw [hposN] at this
              omega
          · rw [withCall_calls, List.pairwise_cons]
            refine ⟨?_, ihPW⟩
            intro a ha
            have := ihLB a ha
            rw [hposN] at this
            rw [hposCall]
            omega
        | NotSupported =>
          rw [subWalk_cdm_fail cdm enc sch sub rest st _ hbad hp h (by simp)]
          simp [posOf]
        | KeyNotFound =>
          rw [subWalk_cdm_fail cdm enc sch sub rest st _ hbad hp h (by simp)]
          simp [posOf]
        | OtherError =>
          rw [subWalk_cdm_fail cdm enc sch sub rest st _ hbad hp h (by simp)]
          simp [posOf]

/-- **C5, amended.** Under `cenc`, provided the 64-bit IV counter does not
overflow during the walk (`hover`), the sequence of `(iv, block_offset)`
pairs presented to successive CDM calls is strictly increasing when
interpreted as `16 * counter(iv) + block_offset`; in particular no
`(iv, block_offset)` pair is presented twice within one frame.  (The
original claim also covered `cens` and bare IV values; the counterexample
shows a `cens` walk, and even a `cenc` walk with `protected_bytes` not a
multiple of 16, can present the same IV twice.) -/
theorem cenc_ctr_monotonic (cdm : Cdm) (payload dest : List Nat)
    (fm : FrameMeta) (enc : EncryptionInfo)
    (hsch : enc.scheme = kCencScheme)
    (hiv : enc.iv.length = 16)
    (hb : ∀ b ∈ enc.iv, b < 256)
    (hp32 : ∀ s ∈ enc.subsamples, s.bytes_of_protected_data < 2 ^ 32)
    (hover : 16 * ivCounter enc.iv + sumProt enc.subsamples < 16 * 2 ^ 64) :
    List.Pairwise (fun a b => posOf a < posOf b)
      (Decrypt cdm { frame := { payload := payload, enc_info := some enc,
                                meta := fm }, dest := dest }).calls ∧
    List.Pairwise (fun a b => ¬(a.iv = b.iv ∧ a.block_offset = b.block_offset))
      (Decrypt cdm { frame := { payload := payload, enc_info := some enc,
                                meta := fm }, dest := dest }).calls := by
  have hmain : List.Pairwise (fun a b => posOf a < posOf b)
      (Decrypt cdm { frame := { payload := payload, enc_info := some enc,
                                meta := fm }, dest := dest }).calls := by
    unfold Decrypt
    split
    · next heq => cases heq
    · next enc' heq =>
      cases heq
      split
      · simp
      · split
        · simp
        · next s ss hss =>
          refine (subWalk_cenc_pairwise cdm enc _ hsch (s :: ss) _ hiv hb
            (by show (0 : Nat) < 16; omega) ?_ ?_).2
          · rw [← hss]
            exact hp32
          · show 16 * ivCounter enc.iv + 0 + sumProt (s :: ss) < 16 * 2 ^ 64
            rw [← hss]
            omega
  refine ⟨hmain, hmain.imp ?_⟩
  intro a b hab hc
  obtain ⟨h1, h2⟩ := hc
  rw [posOf, posOf, h1, h2] at hab
  omega

/-- Witness for the amended C5 at the scenario-2 `cenc` packet. -/
theorem cenc_ctr_monotonic_witness :
    List.Pairwise (fun a b => posOf a < posOf b)
      (Decrypt succCdm { frame := { payload := List.range 48,
                                    enc_info := some encC2,
                                    meta := meta0 },
                         dest := List.replicate 48 0 }).calls ∧
    List.Pairwise (fun a b => ¬(a.iv = b.iv ∧ a.block_offset = b.block_offset))
      (Decrypt succCdm { frame := { payload := List.range 48,
                                    enc_info := some encC2,
                                    meta := meta0 },
                         dest := List.replicate 48 0 }).calls :=
  cenc_ctr_monotonic succCdm (List.range 48) (List.replicate 48 0) meta0 encC2
    rfl (by decide) (by decide) (by decide) (by decide)

/-! ### C6: the InvalidContainerData characterisation -/

/-- Written from the claim's words (C6), not from the source: the walk of
the subsample table returns `InvalidContainerData` exactly when some
subsample's `clear_bytes` exceeds the remaining payload or its
`protected_bytes` exceeds the remaining payload after the clear bytes,
or (under `cbc1`) a subsample's `protected_bytes` is positive but less
than 16 or not a multiple of 16, or payload bytes remain after the last
subsample. -/
def icdSpecWalk (scheme : Nat) : List Subsample → Nat → Bool
  | [], total => total != 0
  | s :: rest, total =>
    if total < s.bytes_of_clear_data ∨
        total - s.bytes_of_clear_data < s.bytes_of_protected_data then true
    else if scheme = kCbc1Scheme ∧ 0 < s.bytes_of_protected_data ∧
        (s.bytes_of_protected_data < 16 ∨
          s.bytes_of_protected_data % 16 ≠ 0) then true
    else icdSpecWalk scheme rest
      (total - s.bytes_of_clear_data - s.bytes_of_protected_data)

/-- The claim's first case: the wire scheme is `cenc` or `cbc1` and
`crypt_byte_block` or `skip_byte_block` is non-zero. -/
def patternClash (enc : EncryptionInfo) : Prop :=
  (enc.scheme = kCencScheme ∨ enc.scheme = kCbc1Scheme) ∧
  (enc.crypt_byte_block ≠ 0 ∨ enc.skip_byte_block ≠ 0)

/-- The wire scheme is one of the four supported tags. -/
def schemeKnown (w : Nat) : Prop :=
  w = kCencScheme ∨ w = kCensScheme ∨ w = kCbc1Scheme ∨ w = kCbcsScheme

/-- Written from the claim's words (C6): the exhaustive list of
`InvalidContainerData` cases.  (A subsample-table case presupposes that the
scheme classification itself succeeded — an unknown scheme returns
`NotSupported` before the table is walked, and on an empty table no walk
happens.) -/
def icdSpec (enc : EncryptionInfo) (plen : Nat) : Prop :=
  patternClash enc ∨
  (schemeKnown enc.scheme ∧ ¬ patternClash enc ∧ enc.subsamples ≠ [] ∧
   icdSpecWalk enc.scheme enc.subsamples plen = true)

theorem mapStatus_ne_icd (s : DecryptStatus) :
    mapStatus s ≠ Status.InvalidContainerData := by
  cases s <;> simp [mapStatus]

/-- Soundness of the claim's case list, for an arbitrary CDM: whenever the
walk returns `InvalidContainerData`, one of the listed walk conditions
holds. -/
theorem subWalk_icd_sound (cdm : Cdm) (enc : EncryptionInfo)
    (sch : EncryptionScheme) :
    ∀ (subs : List Subsample) (st : WalkState),
      (subWalk cdm enc sch subs st).outcome =
        DOutcome.ret Status.InvalidContainerData →
      icdSpecWalk enc.scheme subs st.total_size = true := by
  intro subs
  induction subs with
  | nil =>
    intro st hout
    rw [subWalk_nil] at hout
    by_cases ht : st.total_size ≠ 0
    · simp [icdSpecWalk, ht]
    · rw [if_neg ht] at hout
      simp at hout
  | cons sub rest ih =>
    intro st hout
    by_cases hbad : st.total_size < sub.bytes_of_clear_data ∨
        st.total_size - sub.bytes_of_clear_data < sub.bytes_of_protected_data
    · simp [icdSpecWalk, hbad]
    · by_cases hz : sub.bytes_of_protected_data = 0
      · rw [subWalk_skip cdm enc sch sub rest st hbad hz] at hout
        have := ih _ hout
        simp only [icdSpecWalk, if_neg hbad]
        rw [if_neg (by simp [hz])]
        simpa [hz] using this
      · have hp : 0 < sub.bytes_of_protected_data := by omega
        cases h : cdm.status (mkCall sch enc
            (stepClear st sub.bytes_of_clear_data)
            sub.bytes_of_protected_data) with
        | NotSupported =>
          rw [subWalk_cdm_fail cdm enc sch sub rest st _ hbad hp h
            (by simp)] at hout
          simp [mapStatus] at hout
        | KeyNotFound =>
          rw [subWalk_cdm_fail cdm enc sch sub rest st _ hbad hp h
            (by simp)] at hout
          simp [mapStatus] at hout
        | OtherError =>
          rw [subWalk_cdm_fail cdm enc sch sub rest st _ hbad hp h
            (by simp)] at hout
          simp [mapStatus] at hout
        | Success =>
          by_cases h1 : enc.scheme = kCencScheme
          · by_cases hlen : st.cur_iv.length = 16
            · rw [subWalk_cenc cdm enc sch sub rest st h1 hbad hp hlen h,
                withCall_outcome] at hout
              have := ih _ hout
              simp only [icdSpecWalk, if_neg hbad]
              rw [if_neg (by simp [h1, kCencScheme, kCbc1Scheme])]
              simpa using this
            · rw [subWalk_cenc_crash cdm enc sch sub rest st h1 hbad hp hlen
                h] at hout
              simp at hout
          · by_cases h2 : enc.scheme = kCensScheme
            · by_cases hps : enc.crypt_byte_block + enc.skip_byte_block = 0
              · rw [subWalk_cens_crash cdm enc sch sub rest st h2 hps hbad hp
                  h] at hout
                simp at hout
              · by_cases hlen : st.cur_iv.length = 16
                · rw [subWalk_cens cdm enc sch sub rest st h2 hps hbad hp hlen
                    h, withCall_outcome] at hout
                  have := ih _ hout
                  simp only [icdSpecWalk, if_neg hbad]
                  rw [if_neg (by simp [h2, kCensScheme, kCbc1Scheme])]
                  simpa using this
                · rw [subWalk_cens_badiv cdm enc sch sub rest st h2 hps hbad hp
                    hlen h] at hout
                  simp at hout
            · by_cases h3 : enc.scheme = kCbc1Scheme
              · by_cases hblk : sub.bytes_of_protected_data < 16 ∨
                    sub.bytes_of_protected_data % 16 ≠ 0
                · simp [icdSpecWalk, hbad, h3, hp, hblk]
                · rw [subWalk_cbc1_good cdm enc sch sub rest st h3 hbad hblk h,
                    withCall_outcome] at hout
                  have := ih _ hout
                  simp only [icdSpecWalk, if_neg hbad]
                  rw [if_neg (fun hcon => hblk hcon.2.2)]
                  simpa using this
              · rw [subWalk_cbcs cdm enc sch sub rest st
                  (by simp [h1, h2]) h3 hbad hp h, withCall_outcome] at hout
                have := ih _ hout
                simp only [icdSpecWalk, if_neg hbad]
                rw [if_neg (by simp [h3])]
                simpa using this

/-- Completeness of the claim's case list under a CDM that always
succeeds: the walk returns `InvalidContainerData` precisely when one of the
listed walk conditions holds.  The hypotheses exclude the two crash bugs
(C1: IV length ≠ 16; C7: `cens` with a zero pattern), under which the
source does not return at all. -/
theorem subWalk_icd_complete (enc : EncryptionInfo) (sch : EncryptionScheme)
    (hcens : enc.scheme = kCensScheme →
      enc.crypt_byte_block + enc.skip_byte_block ≠ 0) :
    ∀ (subs : List Subsample) (st : WalkState),
      st.cur_iv.length = 16 →
      st.src_pos + st.total_size = st.mem.frame.payload.length →
      ((subWalk succCdm enc sch subs st).outcome =
          DOutcome.ret Status.InvalidContainerData ↔
        icdSpecWalk enc.scheme subs st.total_size = true) := by
  intro subs
  induction subs with
  | nil =>
    intro st _ _
    rw [subWalk_nil]
    by_cases ht : st.total_size ≠ 0
    · rw [if_pos ht]
      simp [icdSpecWalk, ht]
    · rw [if_neg ht]
      push_neg at ht
      simp [icdSpecWalk, ht]
  | cons sub rest ih =>
    intro st hlen hinv
    by_cases hbad : st.total_size < sub.bytes_of_clear_data ∨
        st.total_size - sub.bytes_of_clear_data < sub.bytes_of_protected_data
    · rw [subWalk_bounds succCdm enc sch sub rest st hbad]
      simp [icdSpecWalk, hbad]
    · by_cases hz : sub.bytes_of_protected_data = 0
      · rw [subWalk_skip succCdm enc sch sub rest st hbad hz]
        have := ih (stepClear st sub.bytes_of_clear_data) hlen
          (by simp; omega)
        rw [this]
        simp only [icdSpecWalk, if_neg hbad]
        rw [if_neg (by simp [hz])]
        simp [hz]
      · have hp : 0 < sub.bytes_of_protected_data := by omega
        have h : succCdm.status (mkCall sch enc
            (stepClear st sub.bytes_of_clear_data)
            sub.bytes_of_protected_data) = DecryptStatus.Success := rfl
        by_cases h1 : enc.scheme = kCencScheme
        · rw [subWalk_cenc succCdm enc sch sub rest st h1 hbad hp hlen h,
            withCall_outcome]
          have hspec : icdSpecWalk enc.scheme (sub :: rest) st.total_size =
              icdSpecWalk enc.scheme rest (st.total_size -
                sub.bytes_of_clear_data - sub.bytes_of_protected_data) := by
            simp only [icdSpecWalk, if_neg hbad]
            rw [if_neg (by simp [h1, kCencScheme, kCbc1Scheme])]
          rw [hspec]
          refine ih _ ?_ ?_
          · show (IncrementIv _ st.cur_iv).length = 16
            exact IncrementIv_length _ _ hlen
          · show st.src_pos + sub.bytes_of_clear_data +
              sub.bytes_of_protected_data + (st.total_size -
                sub.bytes_of_clear_data - sub.bytes_of_protected_data) =
              st.mem.frame.payload.length
            omega
        · by_cases h2 : enc.scheme = kCensScheme
          · rw [subWalk_cens succCdm enc sch sub rest st h2 (hcens h2) hbad hp
              hlen h, withCall_outcome]
            have hspec : icdSpecWalk enc.scheme (sub :: rest) st.total_size =
                icdSpecWalk enc.scheme rest (st.total_size -
                  sub.bytes_of_clear_data - sub.bytes_of_protected_data) := by
              simp only [icdSpecWalk, if_neg hbad]
              rw [if_neg (by simp [h2, kCensScheme, kCbc1Scheme])]
            rw [hspec]
            refine ih _ ?_ ?_
            · show (IncrementIv _ st.cur_iv).length = 16
              exact IncrementIv_length _ _ hlen
            · show st.src_pos + sub.bytes_of_clear_data +
                sub.bytes_of_protected_data + (st.total_size -
                  sub.bytes_of_clear_data - sub.bytes_of_protected_data) =
                st.mem.frame.payload.length
              omega
          · by_cases h3 : enc.scheme = kCbc1Scheme
            · by_cases hblk : sub.bytes_of_protected_data < 16 ∨
                  sub.bytes_of_protected_data % 16 ≠ 0
              · rw [subWalk_cbc1_bad succCdm enc sch sub rest st h3 hbad hp
                  hblk h]
                simp [icdSpecWalk, hbad, h3, hp, hblk]
              · rw [subWalk_cbc1_good succCdm enc sch sub rest st h3 hbad hblk
                  h, withCall_outcome]
                have hspec : icdSpecWalk enc.scheme (sub :: rest) st.total_size
                    = icdSpecWalk enc.scheme rest (st.total_size -
                      sub.bytes_of_clear_data - sub.bytes_of_protected_data) := by
                  simp only [icdSpecWalk, if_neg hbad]
                  rw [if_neg (fun hcon => hblk hcon.2.2)]
                rw [hspec]
                refine ih _ ?_ ?_
                · show (slice st.mem.frame.payload
                    (st.src_pos + sub.bytes_of_clear_data +
                      sub.bytes_of_protected_data - 16) 16).length = 16
                  simp only [slice, List.length_take, List.length_drop]
                  omega
                · show st.src_pos + sub.bytes_of_clear_data +
                    sub.bytes_of_protected_data + (st.total_size -
                      sub.bytes_of_clear_data - sub.bytes_of_protected_data) =
                    st.mem.frame.payload.length
                  omega
            · rw [subWalk_cbcs succCdm enc sch sub rest st (by simp [h1, h2])
                h3 hbad hp h, withCall_outcome]
              have hspec : icdSpecWalk enc.scheme (sub :: rest) st.total_size =
                  icdSpecWalk enc.scheme rest (st.total_size -
                    sub.bytes_of_clear_data - sub.bytes_of_protected_data) := by
                simp only [icdSpecWalk, if_neg hbad]
                rw [if_neg (by simp [h3])]
              rw [hspec]
              refine ih _ ?_ ?_
              · exact hlen
              · show st.src_pos + sub.bytes_of_clear_data +
                  sub.bytes_of_protected_data + (st.total_size -
                    sub.bytes_of_clear_data - sub.bytes_of_protected_data) =
                  st.mem.frame.payload.length
                omega

theorem classify_of_clash (enc : EncryptionInfo) (h : patternClash enc) :
    classifyScheme enc = Except.error Status.InvalidContainerData := by
  obtain ⟨hs, hp⟩ := h
  unfold classifyScheme
  rcases hs with h1 | h1
  · rw [if_pos h1, if_pos hp]
  · rw [if_neg (by rw [h1]; decide), if_neg (by rw [h1]; decide), if_pos h1,
      if_pos hp]

theorem classify_unknown (enc : EncryptionInfo) (h : ¬ schemeKnown enc.scheme) :
    classifyScheme enc = Except.error Status.NotSupported := by
  unfold schemeKnown at h
  push_neg at h
  obtain ⟨n1, n2, n3, n4⟩ := h
  unfold classifyScheme
  rw [if_neg n1, if_neg n2, if_neg n3, if_neg n4]

theorem classify_ok (enc : EncryptionInfo) (hknown : schemeKnown enc.scheme)
    (hnc : ¬ patternClash enc) :
    ∃ sch, classifyScheme enc = Except.ok sch := by
  unfold classifyScheme
  rcases hknown with h | h | h | h
  · have hp : ¬(enc.crypt_byte_block ≠ 0 ∨ enc.skip_byte_block ≠ 0) :=
      fun hp => hnc ⟨Or.inl h, hp⟩
    exact ⟨_, by rw [if_pos h, if_neg hp]⟩
  · exact ⟨_, by rw [if_neg (by rw [h]; decide), if_pos h]⟩
  · have hp : ¬(enc.crypt_byte_block ≠ 0 ∨ enc.skip_byte_block ≠ 0) :=
      fun hp => hnc ⟨Or.inr h, hp⟩
    exact ⟨_, by rw [if_neg (by rw [h]; decide), if_neg (by rw [h]; decide),
      if_pos h, if_neg hp]⟩
  · exact ⟨_, by rw [if_neg (by rw [h]; decide), if_neg (by rw [h]; decide),
      if_neg (by rw [h]; decide), if_pos h]⟩

theorem patternClash_known (enc : EncryptionInfo) (h : patternClash enc) :
    schemeKnown enc.scheme := by
  rcases h.1 with h1 | h1
  · exact Or.inl h1
  · exact Or.inr (Or.inr (Or.inl h1))

/-- Assemble the memory `Decrypt` receives from a payload, a destination
buffer, frame metadata and decoded side data. -/
def memOf (payload dest : List Nat) (fm : FrameMeta)
    (enc : EncryptionInfo) : Memory :=
  { frame := { payload := payload, enc_info := some enc, meta := fm },
    dest := dest }

/-- **C6.** `decrypt` returns `InvalidContainerData` exactly in the
claim's cases and no other: the pattern clash (`cenc`/`cbc1` wire scheme
with a non-zero pattern field), a subsample whose sizes overflow the
remaining payload, a `cbc1` subsample whose positive `protected_bytes` is
not a positive multiple of 16, or leftover payload after the last
subsample (`icdSpec`, written from the claim).  The "no other" direction
holds for every CDM; the "exactly" direction is stated for a CDM that
always succeeds, since a failing CDM call aborts the walk first (claim
C9), and under the hypotheses that exclude the separately reported crash
bugs C1 (`iv` length ≠ 16) and C7 (`cens` with a zero pattern), where the
source does not return at all. -/
theorem decrypt_icd_exactly (payload dest : List Nat) (fm : FrameMeta)
    (enc : EncryptionInfo)
    (hiv : enc.iv.length = 16)
    (hcens : enc.scheme = kCensScheme →
      enc.crypt_byte_block + enc.skip_byte_block ≠ 0) :
    (∀ cdm : Cdm,
      (Decrypt cdm (memOf payload dest fm enc)).outcome =
        DOutcome.ret Status.InvalidContainerData →
      icdSpec enc payload.length) ∧
    ((Decrypt succCdm (memOf payload dest fm enc)).outcome =
        DOutcome.ret Status.InvalidContainerData ↔
      icdSpec enc payload.length) := by
  by_cases hclash : patternClash enc
  · have hcl := classify_of_clash enc hclash
    constructor
    · intro cdm _
      exact Or.inl hclash
    · exact iff_of_true (by simp [Decrypt, memOf, hcl]) (Or.inl hclash)
  · by_cases hknown : schemeKnown enc.scheme
    · obtain ⟨sch, hok⟩ := classify_ok enc hknown hclash
      cases hsubs : enc.subsamples with
      | nil =>
        have hne : ∀ cdm : Cdm,
            ¬ (Decrypt cdm (memOf payload dest fm enc)).outcome =
              DOutcome.ret Status.InvalidContainerData := by
          intro cdm hICD
          simp [Decrypt, memOf, hok, hsubs] at hICD
          exact mapStatus_ne_icd _ hICD
        refine ⟨fun cdm hICD => absurd hICD (hne cdm),
          iff_of_false (hne succCdm) ?_⟩
        rintro (hc | ⟨_, _, hne', _⟩)
        · exact hclash hc
        · exact hne' hsubs
      | cons s ss =>
        have hrun : ∀ cdm : Cdm,
            Decrypt cdm (memOf payload dest fm enc) =
              subWalk cdm enc sch (s :: ss)
                { mem := memOf payload dest fm enc, src_pos := 0,
                  dst_pos := 0, total_size := payload.length,
                  block_offset := 0, cur_iv := enc.iv } := by
          intro cdm
          simp [Decrypt, memOf, hok, hsubs]
        have hspec_iff : icdSpec enc payload.length ↔
            icdSpecWalk enc.scheme (s :: ss) payload.length = true := by
          constructor
          · rintro (hc | ⟨_, _, _, hw⟩)
            · exact absurd hc hclash
            · rwa [hsubs] at hw
          · intro hw
            refine Or.inr ⟨hknown, hclash, ?_, ?_⟩
            · rw [hsubs]
              simp
            · rwa [hsubs]
        constructor
        · intro cdm hICD
          rw [hrun cdm] at hICD
          have := subWalk_icd_sound cdm enc sch (s :: ss) _ hICD
          exact hspec_iff.mpr this
        · rw [hrun succCdm, hspec_iff]
          refine subWalk_icd_complete enc sch hcens (s :: ss) _ ?_ ?_
          · exact hiv
          · show 0 + payload.length = (memOf payload dest fm enc).frame.payload.length
            simp [memOf]
    · have hcl := classify_unknown enc hknown
      have hne : ∀ cdm : Cdm,
          ¬ (Decrypt cdm (memOf payload dest fm enc)).outcome =
            DOutcome.ret Status.InvalidContainerData := by
        intro cdm hICD
        simp [Decrypt, memOf, hcl] at hICD
      refine ⟨fun cdm hICD => absurd hICD (hne cdm),
        iff_of_false (hne succCdm) ?_⟩
      rintro (hc | ⟨hk, _, _, _⟩)
      · exact hknown (patternClash_known enc hc)
      · exact hknown hk

/-- A `cenc` packet whose single `(0, 4)` subsample leaves one leftover
payload byte. -/
def encC6 : EncryptionInfo :=
  { scheme := kCencScheme, crypt_byte_block := 0, skip_byte_block := 0,
    key_id := [6], iv := List.replicate 16 0, subsamples := [⟨0, 4⟩] }

/-- Witness for C6: on the leftover-byte packet, `icdSpec` holds and
`decrypt` under the always-success CDM returns `InvalidContainerData`. -/
theorem decrypt_icd_exactly_witness :
    (∀ cdm : Cdm,
      (Decrypt cdm (memOf [1, 2, 3, 4, 5] [0, 0, 0, 0, 0] meta0
          encC6)).outcome = DOutcome.ret Status.InvalidContainerData →
      icdSpec encC6 5) ∧
    ((Decrypt succCdm (memOf [1, 2, 3, 4, 5] [0, 0, 0, 0, 0] meta0
          encC6)).outcome = DOutcome.ret Status.InvalidContainerData ↔
      icdSpec encC6 5) :=
  decrypt_icd_exactly [1, 2, 3, 4, 5] [0, 0, 0, 0, 0] meta0 encC6
    (by decide) (by intro h; cases h)

end Shaka
